import Mathlib

/-!
Verification of the transcript-summarizer / Bitcoin-price-chart repository.

This file gives a shallow embedding of the repository's logic and proves the
frozen claims about it.  Two source files carry all the logic:

* `script.js` (the unnamed summarizer page script): URL validation
  (`isValidYouTubeURL`, `isValidPodcastURL`), video-id extraction
  (`extractYouTubeVideoId`), the three-strategy transcript fetch chain
  (`getYouTubeTranscript`), metadata fetch with fallback
  (`getYouTubeVideoInfo`), the extractive summarizer (`generateSummary`,
  `extractKeyPoints`) and the pipeline driver (`summarizeContent`).
* `app.js` (the price page): the bounded price-history buffer (`updateChart`).

Modelling conventions:
* JS strings are modelled as `List Char` (ASCII scope; `toLowerCase` and
  `trim` are modelled on the ASCII range, which covers every literal in the
  program and every input used in the proofs).  `String` is used at the API
  edge where the source works with whole URLs and messages.
* Network effects are modelled by passing the observable outcome of each
  `fetch` (thrown / non-ok / body) as an explicit argument.
* JS `Array.prototype.sort` with a numeric comparator is stable (ES2019), and
  `Object.entries` enumerates integer-index-like keys first in ascending
  numeric order, then the remaining string keys in insertion order
  (ECMAScript `OrdinaryOwnPropertyKeys`).  Both facts are reflected in the
  embedding of `extractKeyPoints`.
-/

/-! ## app.js: bounded price-history buffer -/

/-- Embedding of `const maxDataPoints = 50;`. -/
def maxDataPoints : Nat := 50

/-- The module-level mutable arrays `priceHistory` and `timeLabels` of
`app.js`.  Prices and labels are kept abstract (`α`, `β`): the buffer logic
never inspects them. -/
structure ChartState (α β : Type) where
  prices : List α
  labels : List β

/-- Embedding of `updateChart(price)` from `app.js` (the chart-widget
redraw is out of scope; the time label produced from `new Date()` is an
input).  Mirrors the source: push on both arrays, then
`if (priceHistory.length > maxDataPoints) { priceHistory.shift(); timeLabels.shift(); }`. -/
def updateChart {α β : Type} (price : α) (label : β) (s : ChartState α β) :
    ChartState α β :=
  let prices := s.prices ++ [price]
  let labels := s.labels ++ [label]
  if maxDataPoints < prices.length then
    ⟨prices.drop 1, labels.drop 1⟩
  else
    ⟨prices, labels⟩

/-- Repeatedly feed samples `(price, label)` to `updateChart`, starting from
the initial empty buffers of `app.js`. -/
def runChart {α β : Type} (samples : List (α × β)) : ChartState α β :=
  samples.foldl (fun s pl => updateChart pl.1 pl.2 s) ⟨[], []⟩

/-! ## script.js: transcript fetch chain -/

/-- Observable outcome of one retrieval strategy of `getYouTubeTranscript`:
either the attempt fails (the `fetch` threw, or `response.ok` was false), or
it yields a response whose body parses (via `parseYouTubeTranscriptXML`) to
the given transcript text. -/
inductive AttemptResult where
  | failure
  | success (parsed : List Char)
deriving DecidableEq, Repr

/-- The acceptance test applied to a parsed transcript inside each strategy
of `getYouTubeTranscript`: `if (transcript && transcript.length > 50)`. -/
def acceptable (t : List Char) : Bool :=
  !t.isEmpty && decide (50 < t.length)

/-- The aggregated error message thrown when all three strategies are
exhausted (string concatenation as in the source). -/
def corsMsg : String :=
  "Unable to fetch transcript due to CORS restrictions. Please set up a backend service (see README.md) or use a browser extension that disables CORS. Alternatively, ensure the video has captions enabled."

/-- Embedding of the sequential fallback chain of `getYouTubeTranscript`:
walk the strategies in order, return the first accepted transcript, and
count how many strategies were actually invoked.  An exhausted chain yields
the single aggregated error. -/
def runChain : List AttemptResult → Except String (List Char) × Nat
  | [] => (Except.error corsMsg, 0)
  | a :: rest =>
    match a with
    | .success t =>
      if acceptable t then (Except.ok t, 1)
      else
        let r := runChain rest
        (r.1, r.2 + 1)
    | .failure =>
      let r := runChain rest
      (r.1, r.2 + 1)

/-- Embedding of `getYouTubeTranscript(videoId)`: the three strategies (direct call,
proxy A, proxy B) hit the network; their observable outcomes are passed in.
The returned value is the first accepted transcript, or the aggregated
error. -/
def getYouTubeTranscript (a1 a2 a3 : AttemptResult) : Except String (List Char) :=
  (runChain [a1, a2, a3]).1

/-- An attempt that is not accepted by the chain: it failed outright, or its
parsed transcript does not pass the `transcript && transcript.length > 50`
gate. -/
def notAccepted : AttemptResult → Bool
  | .failure => true
  | .success t => !acceptable t

/-! ## script.js: extractive summarizer -/

/-- The sentence delimiters of `text.split(/[.!?]+/)`. -/
def isSentenceDelim (c : Char) : Bool :=
  c = '.' || c = '!' || c = '?'

/-- The whitespace class of `/\s+/` and of `String.prototype.trim`,
restricted to the ASCII range (space, tab, line feed, vertical tab, form
feed, carriage return). -/
def isWSChar (c : Char) : Bool :=
  c = ' ' || c = '\t' || c = '\n' || c = '\x0b' || c = '\x0c' || c = '\r'

/-- The JS word-character class `\w`, i.e. `[A-Za-z0-9_]`, used by
`word.replace(/[^\w]/g, '')`. -/
def isWordChar (c : Char) : Bool :=
  decide ('a' ≤ c ∧ c ≤ 'z') || decide ('A' ≤ c ∧ c ≤ 'Z') ||
    decide ('0' ≤ c ∧ c ≤ '9') || c = '_'

/-- Embedding of `String.prototype.toLowerCase` on the ASCII range (Lean's `Char.toLower`
lowers exactly the ASCII uppercase letters). -/
def toLowerAscii (c : Char) : Char := c.toLower

/-- Embedding of `str.split(/[D]+/)` for a delimiter class `p`: fragments
between maximal runs of delimiter characters, with the JS conventions
`"".split = [""]`, `"a.".split = ["a", ""]`, `".a".split = ["", "a"]`,
`"a..b".split = ["a", "b"]`. -/
def splitOnRuns (p : Char → Bool) : List Char → List (List Char)
  | [] => [[]]
  | c :: cs =>
    let r := splitOnRuns p cs
    if p c then
      match cs with
      | [] => [] :: r
      | c2 :: _ => if p c2 then r else [] :: r
    else
      match r with
      | [] => [[c]]
      | f :: rest => (c :: f) :: rest

/-- Embedding of `String.prototype.trim` (ASCII whitespace). -/
def trimChars (l : List Char) : List Char :=
  ((l.dropWhile isWSChar).reverse.dropWhile isWSChar).reverse

/-- Embedding of `const sentences = text.split(/[.!?]+/).filter(s => s.trim().length > 20);`. -/
def sentencesOf (text : List Char) : List (List Char) :=
  (splitOnRuns isSentenceDelim text).filter (fun s => decide (20 < (trimChars s).length))

/-- Embedding of `Math.min(5, Math.ceil(sentences.length * 0.2))`.

The float expression `Math.ceil(n * 0.2)` agrees with the exact `⌈n / 5⌉ =
(n + 4) / 5` for every count that can influence the result: for `n ≤ 25`
the double product `n * 0.2` rounds to a value whose ceiling equals
`⌈n / 5⌉` (checked case by case at the only candidates `n = 5, 10, 15, 20,
25`, where the product rounds down to the exact integer), and for `n > 25`
both sides are clamped by the outer `min 5`. -/
def summaryLengthOf (n : Nat) : Nat :=
  min 5 ((n + 4) / 5)

/-- The `summary` string built by `generateSummary`:
`sentences.slice(0, summaryLength).join('. ') + '.'`. -/
def summaryOf (text : List Char) : List Char :=
  let sentences := sentencesOf text
  List.intercalate ['.', ' '] (sentences.take (summaryLengthOf sentences.length)) ++ ['.']

/-- Embedding of `text.split(/\s+/).length`, the `wordCount` field of `generateSummary`. -/
def wordCountOf (text : List Char) : Nat :=
  (splitOnRuns isWSChar text).length

/-- The stop-word set of `extractKeyPoints`, verbatim from the source. -/
def stopWords : List (List Char) :=
  ["the", "a", "an", "and", "or", "but", "in", "on", "at", "to", "for", "of",
   "with", "by", "is", "are", "was", "were", "be", "been", "have", "has",
   "had", "do", "does", "did", "will", "would", "could", "should", "may",
   "might", "must", "can", "this", "that", "these", "those", "i", "you",
   "he", "she", "it", "we", "they"].map String.data

/-- One step of building the `wordFreq` object:
`wordFreq[cleanWord] = (wordFreq[cleanWord] || 0) + 1;` on an
insertion-ordered association list (a new key is created at the end, an
existing key is incremented in place). -/
def bump (w : List Char) : List (List Char × Nat) → List (List Char × Nat)
  | [] => [(w, 1)]
  | p :: rest => if p.1 = w then (p.1, p.2 + 1) :: rest else p :: bump w rest

/-- The keys of an association list, in property-creation order. -/
def keysOf (m : List (List Char × Nat)) : List (List Char) :=
  m.map Prod.fst

/-- Numeric value of an all-digit key. -/
def keyNum (k : List Char) : Nat :=
  k.foldl (fun n c => n * 10 + (c.toNat - 48)) 0

/-- Whether a property key is an ECMAScript array index (a canonical
all-digit numeral below `2^32 - 1`); such keys are enumerated by
`Object.entries` before all other keys, in ascending numeric order. -/
def isArrayIndexKey (k : List Char) : Bool :=
  !k.isEmpty && k.all Char.isDigit &&
    (decide (k = ['0']) || decide (k.headD '0' ≠ '0')) &&
    decide (keyNum k < 4294967295)

/-- Insert into a list sorted ascending by numeric key value. -/
def insertAscNum (x : List Char × Nat) :
    List (List Char × Nat) → List (List Char × Nat)
  | [] => [x]
  | y :: ys => if keyNum x.1 ≤ keyNum y.1 then x :: y :: ys else y :: insertAscNum x ys

/-- Embedding of `Object.entries(wordFreq)`: array-index-like keys first in ascending
numeric order, then the remaining keys in insertion order
(`OrdinaryOwnPropertyKeys`). -/
def jsEntries (m : List (List Char × Nat)) : List (List Char × Nat) :=
  (m.filter (fun p => isArrayIndexKey p.1)).foldr insertAscNum [] ++
    m.filter (fun p => !isArrayIndexKey p.1)

/-- Insert behind every element of count `≥` the inserted count: folding
this over a list from the left is exactly a stable sort by descending
count, which is what `.sort((a, b) => b[1] - a[1])` performs (ES2019 sorts
are stable). -/
def insertDesc (x : List Char × Nat) :
    List (List Char × Nat) → List (List Char × Nat)
  | [] => [x]
  | y :: ys => if y.2 < x.2 then x :: y :: ys else y :: insertDesc x ys

/-- Stable sort by descending count. -/
def stableSortDesc (l : List (List Char × Nat)) : List (List Char × Nat) :=
  l.foldl (fun acc x => insertDesc x acc) []

/-- Embedding of `extractKeyPoints(text)`: lowercase, split on whitespace,
strip non-word characters, drop short tokens and stop words while counting
frequencies into `wordFreq`, then
`Object.entries(wordFreq).sort((a, b) => b[1] - a[1]).slice(0, 5).map(([word]) => word)`. -/
def extractKeyPoints (text : List Char) : List (List Char) :=
  let words := splitOnRuns isWSChar (text.map toLowerAscii)
  let wordFreq := words.foldl (fun m w =>
    let cleanWord := w.filter isWordChar
    if 4 < cleanWord.length ∧ cleanWord ∉ stopWords then bump cleanWord m else m) []
  ((stableSortDesc (jsEntries wordFreq)).take 5).map Prod.fst

/-- The result record `{summary, keyPoints, wordCount}` of `generateSummary`. -/
structure SummaryResult where
  summary : List Char
  keyPoints : List (List Char)
  wordCount : Nat
deriving DecidableEq, Repr

/-- Message of `throw new Error('Transcript too short to generate summary')`. -/
def tooShortMsg : String := "Transcript too short to generate summary"

/-- Embedding of `generateSummary(text)`: the `!text || text.length < 50`
gate, then the record of extractive summary, key points and word count. -/
def generateSummary (text : List Char) : Except String SummaryResult :=
  if text.isEmpty ∨ text.length < 50 then Except.error tooShortMsg
  else Except.ok ⟨summaryOf text, extractKeyPoints text, wordCountOf text⟩

/-! ## script.js: URL validation and video-id extraction

The regexes of `isValidYouTubeURL` / `extractYouTubeVideoId` are embedded
directly: a literal is matched by `matchLit`, the character class
`[a-zA-Z0-9_-]` by `isIdChar`, the exact repetition `{11}` by `matchIdRun`,
optional groups and alternations by explicit disjunction, and an unanchored
`String.prototype.match` by the leftmost-position scan `findCapture`. -/

/-- The video-id character class `[a-zA-Z0-9_-]`. -/
def isIdChar (c : Char) : Bool :=
  decide ('a' ≤ c ∧ c ≤ 'z') || decide ('A' ≤ c ∧ c ≤ 'Z') ||
    decide ('0' ≤ c ∧ c ≤ '9') || c = '_' || c = '-'

/-- Match a literal at the head of the input, returning the rest. -/
def matchLit : List Char → List Char → Option (List Char)
  | [], cs => some cs
  | _ :: _, [] => none
  | lc :: ls, c :: cs => if c = lc then matchLit ls cs else none

/-- Match `([a-zA-Z0-9_-]{11})` at the head of the input and return the
captured group. -/
def matchIdRun (cs : List Char) : Option (List Char) :=
  let cap := cs.take 11
  if cap.length = 11 ∧ cap.all isIdChar then some cap else none

/-- The repetition `([a-zA-Z0-9_-]{11})` as a test (used by the anchored validation
patterns, which allow arbitrary trailing input after the id). -/
def idRun11 (cs : List Char) : Bool :=
  decide ((cs.take 11).length = 11) && (cs.take 11).all isIdChar

/-- Match of `/[?&]v=([a-zA-Z0-9_-]{11})/` at one position.  The head
character is tested first, so the match fails without looking further when
the position does not start with `?` or `&`. -/
def matchAt1 : List Char → Option (List Char)
  | [] => none
  | c :: cs =>
    if c = '?' ∨ c = '&' then
      match cs with
      | v :: e :: rest => if v = 'v' ∧ e = '=' then matchIdRun rest else none
      | _ => none
    else none

/-- The literal `youtu.be/` of `/youtu\.be\/([a-zA-Z0-9_-]{11})/`. -/
def shortLinkLit : List Char := ['y', 'o', 'u', 't', 'u', '.', 'b', 'e', '/']

/-- The literal `embed/` of `/embed\/([a-zA-Z0-9_-]{11})/`. -/
def embedLit : List Char := ['e', 'm', 'b', 'e', 'd', '/']

/-- Positional match of a regex of the shape `lit([a-zA-Z0-9_-]{11})`. -/
def matchAtLit (lit : List Char) (cs : List Char) : Option (List Char) :=
  match matchLit lit cs with
  | some rest => matchIdRun rest
  | none => none

/-- Match of `/youtu\.be\/([a-zA-Z0-9_-]{11})/` at one position. -/
def matchAt2 (cs : List Char) : Option (List Char) :=
  matchAtLit shortLinkLit cs

/-- Match of `/embed\/([a-zA-Z0-9_-]{11})/` at one position. -/
def matchAt3 (cs : List Char) : Option (List Char) :=
  matchAtLit embedLit cs

/-- Whether matching the literal `lit` is already doomed strictly inside
`pre`: there is a character mismatch before either `lit` or `pre` runs out.
In that case `matchLit lit (pre ++ l)` fails for every `l`. -/
def litFailsWithin : List Char → List Char → Bool
  | [], _ => false
  | _ :: _, [] => false
  | lc :: ls, c :: cs => if c = lc then litFailsWithin ls cs else true

/-- Whether the literal `lit` fails strictly within `pre` at every start
position of `pre` — a decidable certificate that a scan for
`lit([a-zA-Z0-9_-]{11})` finds nothing starting inside `pre`. -/
def scanClears (lit pre : List Char) : Bool :=
  (List.range pre.length).all (fun i => litFailsWithin lit (pre.drop i))

/-- Embedding of `url.match(pattern)` for a non-global regex: try the positional matcher
at each position from the left and return the first capture. -/
def findCapture (matchAt : List Char → Option (List Char)) :
    List Char → Option (List Char)
  | [] => matchAt []
  | c :: cs =>
    match matchAt (c :: cs) with
    | some cap => some cap
    | none => findCapture matchAt cs

/-- Embedding of `extractYouTubeVideoId(url)`: the three id-capturing
patterns are tried in order over the whole string; the first successful
capture wins, otherwise `null`. -/
def extractList (l : List Char) : Option (List Char) :=
  match findCapture matchAt1 l with
  | some cap => some cap
  | none =>
    match findCapture matchAt2 l with
    | some cap => some cap
    | none => findCapture matchAt3 l

/-- The function `extractYouTubeVideoId` at the `String` edge. -/
def extractYouTubeVideoId (url : String) : Option String :=
  (extractList url.data).map String.mk

/-- The literal `http`, the mandatory scheme head of both validation patterns. -/
def httpLit : List Char := ['h', 't', 't', 'p']

/-- The literal `://`. -/
def schemeSepLit : List Char := [':', '/', '/']

/-- The literal `www.`, the optional group `(www\.)?`. -/
def wwwLit : List Char := ['w', 'w', 'w', '.']

/-- The literal `youtube.com/watch?v=`, first alternative of the first validation
pattern. -/
def watchLit : List Char :=
  ['y', 'o', 'u', 't', 'u', 'b', 'e', '.', 'c', 'o', 'm', '/', 'w', 'a',
   't', 'c', 'h', '?', 'v', '=']

/-- The literal `youtube.com/embed/`, the distinctive part of the second validation
pattern. -/
def embedPathLit : List Char :=
  ['y', 'o', 'u', 't', 'u', 'b', 'e', '.', 'c', 'o', 'm', '/', 'e', 'm',
   'b', 'e', 'd', '/']

/-- Continuation-style literal match: consume `lit`, then continue. -/
def litB (lit : List Char) (k : List Char → Bool) (cs : List Char) : Bool :=
  match matchLit lit cs with
  | some rest => k rest
  | none => false

/-- Continuation-style optional literal `(lit)?`: the regex alternation of
consuming it or not. -/
def optB (lit : List Char) (k : List Char → Bool) (cs : List Char) : Bool :=
  litB lit k cs || k cs

/-- The alternation `(youtube\.com\/watch\?v=|youtu\.be\/)([a-zA-Z0-9_-]{11})`. -/
def watchOrShortTail (cs : List Char) : Bool :=
  litB watchLit idRun11 cs || litB shortLinkLit idRun11 cs

/-- The pattern `^https?:\/\/(www\.)?(youtube\.com\/watch\?v=|youtu\.be\/)([a-zA-Z0-9_-]{11})`
as a prefix test (a `test` with `^` and no `$` allows trailing input). -/
def watchPat (l : List Char) : Bool :=
  litB httpLit (optB ['s'] (litB schemeSepLit (optB wwwLit watchOrShortTail))) l

/-- The pattern `^https?:\/\/(www\.)?youtube\.com\/embed\/([a-zA-Z0-9_-]{11})` as a
prefix test. -/
def embedPat (l : List Char) : Bool :=
  litB httpLit (optB ['s'] (litB schemeSepLit (optB wwwLit (litB embedPathLit idRun11)))) l

/-- Embedding of `isValidYouTubeURL(url)`: `patterns.some(p => p.test(url))`. -/
def isValidYouTubeURL (url : String) : Bool :=
  watchPat url.data || embedPat url.data

/-! ## script.js: podcast-feed heuristic -/

/-- Substring test (an unanchored regex literal). -/
def containsLit (lit : List Char) : List Char → Bool
  | [] => (matchLit lit []).isSome
  | c :: cs => (matchLit lit (c :: cs)).isSome || containsLit lit cs

/-- The alternation `\.(rss|xml|feed)` at one position (on the lowercased input). -/
def dotFeedSuffix (cs : List Char) : Bool :=
  (matchLit ['.', 'r', 's', 's'] cs).isSome ||
    (matchLit ['.', 'x', 'm', 'l'] cs).isSome ||
    (matchLit ['.', 'f', 'e', 'e', 'd'] cs).isSome

/-- The pattern `.+\.(rss|xml|feed)` from the current position: consume at least one
non-newline character, then the dot-suffix alternation; the `.` class never
crosses a newline. -/
def scanDotFeed : List Char → Bool
  | [] => false
  | c :: cs => if c = '\n' then false else (dotFeedSuffix cs || scanDotFeed cs)

/-- Embedding of `isValidPodcastURL(url)`:
`/^https?:\/\/.+\.(rss|xml|feed)/i.test(url) || /feed/i.test(url) || /podcast/i.test(url)`
(all three regexes are case-insensitive, modelled by lowercasing first). -/
def isValidPodcastURL (url : String) : Bool :=
  let low := url.data.map toLowerAscii
  litB httpLit (optB ['s'] (litB schemeSepLit scanDotFeed)) low ||
    containsLit ['f', 'e', 'e', 'd'] low ||
    containsLit ['p', 'o', 'd', 'c', 'a', 's', 't'] low

/-! ## script.js: video metadata fetch and pipeline driver -/

/-- The record returned by `getYouTubeVideoInfo`. -/
structure VideoInfo where
  title : String
  author : String
  thumbnail : Option String
deriving DecidableEq, Repr

/-- The fixed fallback record of the `catch` branch of
`getYouTubeVideoInfo`: `{title: 'Video', author: 'Unknown', thumbnail: null}`. -/
def fallbackInfo : VideoInfo :=
  ⟨"Video", "Unknown", none⟩

/-- Observable outcome of the oEmbed call inside `getYouTubeVideoInfo`:
`fetch` threw, `response.ok` was false (then `throw new Error(...)` lands in
the same `catch`), `response.json()` threw on a malformed body, or the
parsed JSON fields. -/
inductive InfoOutcome where
  | netError
  | httpError
  | badBody
  | fields (title author : String) (thumbnail : Option String)
deriving DecidableEq, Repr

/-- Embedding of `getYouTubeVideoInfo(videoId)`: every failing outcome is
swallowed by the `catch` and replaced by the fixed fallback record; the
function is total and never propagates an error. -/
def getYouTubeVideoInfo : InfoOutcome → VideoInfo
  | .fields t a th => ⟨t, a, th⟩
  | _ => fallbackInfo

/-- A failing oEmbed outcome (network error, non-2xx response, malformed
body). -/
def infoFailed : InfoOutcome → Bool
  | .fields _ _ _ => false
  | _ => true

/-- Message of `throw new Error('Invalid YouTube URL format')`. -/
def invalidFormatMsg : String := "Invalid YouTube URL format"

/-- Message of `throw new Error('No transcript available for this video. ...')`. -/
def noTranscriptMsg : String :=
  "No transcript available for this video. The video may not have captions enabled."

/-- The fixed rejection of the podcast branch. -/
def podcastMsg : String :=
  "Podcast RSS feed processing requires backend setup. Please use YouTube videos for now."

/-- Message of `throw new Error('Invalid URL. Please enter a valid YouTube URL.')`. -/
def invalidUrlMsg : String := "Invalid URL. Please enter a valid YouTube URL."

/-- The display payload handed to `displayResults`. -/
structure DisplayPayload where
  videoInfo : Option VideoInfo
  summaryData : SummaryResult
  transcript : List Char
deriving DecidableEq, Repr

/-- Inputs of one run of `summarizeContent`: the URL typed by the user and
the observable outcomes of the network calls the run would make (the oEmbed
metadata call and the three transcript strategies). -/
structure PipelineEnv where
  url : String
  info : InfoOutcome
  a1 : AttemptResult
  a2 : AttemptResult
  a3 : AttemptResult

/-- Embedding of the `try` body of `summarizeContent(url)` (DOM writes and
the unconditional `finally` cleanup are out of scope): classify the URL,
extract the id, fetch metadata (best effort), run the transcript chain,
gate on the 50-character rule, summarize, and hand the payload to the
display; any thrown message becomes the user-facing error. -/
def summarizeContent (env : PipelineEnv) : Except String DisplayPayload :=
  if isValidYouTubeURL env.url then
    match extractYouTubeVideoId env.url with
    | none => Except.error invalidFormatMsg
    | some _ =>
      let videoInfo := getYouTubeVideoInfo env.info
      match getYouTubeTranscript env.a1 env.a2 env.a3 with
      | Except.error e => Except.error e
      | Except.ok transcript =>
        if transcript.isEmpty ∨ transcript.length < 50 then
          Except.error noTranscriptMsg
        else
          match generateSummary transcript with
          | Except.error e => Except.error e
          | Except.ok summaryData =>
            Except.ok ⟨some videoInfo, summaryData, transcript⟩
  else if isValidPodcastURL env.url then
    Except.error podcastMsg
  else
    Except.error invalidUrlMsg

/-! ## Specification-side definitions

These follow the wording of the specification and of the claims, to be
compared against the source embeddings above. -/

/-- The accepted tokens of the key-point extraction, in text order: the
lowercased whitespace-split tokens, stripped of non-word characters, that
are longer than 4 characters and not stop words. -/
def acceptedTokens (text : List Char) : List (List Char) :=
  ((splitOnRuns isWSChar (text.map toLowerAscii)).map
      (fun w => w.filter isWordChar)).filter
    (fun c => decide (4 < c.length ∧ c ∉ stopWords))

/-- The distinct elements of a list, each kept at its first occurrence. -/
def firstOccur : List (List Char) → List (List Char)
  | [] => []
  | x :: xs => x :: (firstOccur xs).filter (fun y => decide (y ≠ x))

/-- The frequency table as the claim words it: each distinct accepted
token, in first-encountered order, with its number of occurrences. -/
def specFreq (ts : List (List Char)) : List (List Char × Nat) :=
  (firstOccur ts).map (fun w => (w, ts.count w))

/-- Key points as claim C5 states them: the frequency table in
first-encountered order, stable-sorted by descending count, first five
tokens. -/
def specKeyPointsFE (text : List Char) : List (List Char) :=
  ((stableSortDesc (specFreq (acceptedTokens text))).take 5).map Prod.fst

/-- Key points as the code actually orders them: the same frequency table,
but enumerated the way `Object.entries` enumerates property keys
(array-index-like keys first, ascending), then stable-sorted by descending
count, first five tokens. -/
def specKeyPointsJS (text : List Char) : List (List Char) :=
  ((stableSortDesc (jsEntries (specFreq (acceptedTokens text)))).take 5).map Prod.fst

/-- The count `⌈n × 0.2⌉` as the claim words it (exact rational ceiling of `n / 5`). -/
def specCeilFifth (n : Nat) : Nat :=
  if n % 5 = 0 then n / 5 else n / 5 + 1

/-- The summary string as claim C6 words it: the first
`min(5, ⌈n × 0.2⌉)` of the long-enough fragments, joined with `". "`, with
a trailing period appended. -/
def specSummary (text : List Char) : List Char :=
  List.intercalate ['.', ' ']
      ((sentencesOf text).take (min 5 (specCeilFifth (sentencesOf text).length))) ++ ['.']

/-! ## Lemmas: bounded price-history buffer -/

theorem runChart_append {α β : Type} (samples : List (α × β)) (x : α × β) :
    runChart (samples ++ [x]) = updateChart x.1 x.2 (runChart samples) := by
  simp [runChart, List.foldl_append]

theorem drop_window {γ : Type} (P : List γ) (y : γ) (h : 50 ≤ P.length) :
    (P.drop (P.length - 50) ++ [y]).drop 1 = (P ++ [y]).drop (P.length + 1 - 50) := by
  have h1 : 1 ≤ (P.drop (P.length - 50)).length := by
    rw [List.length_drop]; omega
  have h2 : P.length + 1 - 50 ≤ P.length := by omega
  rw [List.drop_append_of_le_length h1, List.drop_drop,
    List.drop_append_of_le_length h2]
  have h3 : P.length - 50 + 1 = P.length + 1 - 50 := by omega
  rw [h3]

theorem runChart_spec {α β : Type} (samples : List (α × β)) :
    (runChart samples).prices =
        (samples.map Prod.fst).drop (samples.length - maxDataPoints) ∧
    (runChart samples).labels =
        (samples.map Prod.snd).drop (samples.length - maxDataPoints) := by
  simp only [maxDataPoints]
  induction samples using List.reverseRecOn with
  | nil => exact ⟨rfl, rfl⟩
  | append_singleton xs x ih =>
    obtain ⟨hp, hl⟩ := ih
    rw [runChart_append]
    unfold updateChart
    simp only [maxDataPoints, hp, hl]
    have hfst : (xs.map Prod.fst).length = xs.length := by simp
    have hsnd : (xs.map Prod.snd).length = xs.length := by simp
    have hlen : ((xs.map Prod.fst).drop (xs.length - 50) ++ [x.1]).length =
        xs.length - (xs.length - 50) + 1 := by simp
    by_cases hc : 50 ≤ xs.length
    · have hcond : 50 < ((xs.map Prod.fst).drop (xs.length - 50) ++ [x.1]).length := by
        rw [hlen]; omega
      rw [if_pos hcond]
      have e1 := drop_window (xs.map Prod.fst) x.1 (by omega)
      have e2 := drop_window (xs.map Prod.snd) x.2 (by omega)
      rw [hfst] at e1
      rw [hsnd] at e2
      constructor
      · show ((xs.map Prod.fst).drop (xs.length - 50) ++ [x.1]).drop 1 = _
        rw [e1]
        simp [List.map_append]
      · show ((xs.map Prod.snd).drop (xs.length - 50) ++ [x.2]).drop 1 = _
        rw [e2]
        simp [List.map_append]
    · have hcond : ¬ 50 < ((xs.map Prod.fst).drop (xs.length - 50) ++ [x.1]).length := by
        rw [hlen]; omega
      rw [if_neg hcond]
      have h0 : xs.length - 50 = 0 := by omega
      have h0' : (xs ++ [x]).length - 50 = 0 := by simp; omega
      rw [h0, h0']
      simp

/-- C2: the price-history buffer never exceeds 50 entries, `priceHistory`
and `timeLabels` keep equal lengths across every `updateChart` call, and
feeding 51 samples from the empty buffers leaves exactly the last 50 — the
1st (oldest) sample is evicted from the front. -/
theorem claim_c2_buffer_bounded_fifo :
    (∀ (α β : Type) (s : ChartState α β) (p : α) (l : β),
        s.prices.length = s.labels.length →
        (updateChart p l s).prices.length = (updateChart p l s).labels.length) ∧
    (∀ (α β : Type) (s : ChartState α β) (p : α) (l : β),
        s.prices.length ≤ 50 → (updateChart p l s).prices.length ≤ 50) ∧
    (∀ (α β : Type) (samples : List (α × β)), samples.length = 51 →
        (runChart samples).prices = (samples.map Prod.fst).drop 1 ∧
        (runChart samples).labels = (samples.map Prod.snd).drop 1) := by
  refine ⟨?_, ?_, ?_⟩
  · intro α β s p l h
    unfold updateChart
    dsimp only
    split
    · simp [h]
    · simp [h]
  · intro α β s p l h
    unfold updateChart maxDataPoints
    dsimp only
    split
    · next hc =>
      simp only [List.length_drop, List.length_append, List.length_cons,
        List.length_nil] at hc ⊢
      omega
    · next hc =>
      simp only [List.length_append, List.length_cons, List.length_nil, Nat.not_lt,
        maxDataPoints] at hc ⊢
      omega
  · intro α β samples h
    have hs := runChart_spec samples
    rw [h] at hs
    exact hs

/-- Witness for C2 at concrete inputs: a singleton buffer keeps equal
lengths and stays within bound, and 51 concrete samples evict the first. -/
theorem claim_c2_buffer_bounded_fifo_witness :
    (updateChart 7 9 (⟨[1], [2]⟩ : ChartState Nat Nat)).prices.length =
        (updateChart 7 9 (⟨[1], [2]⟩ : ChartState Nat Nat)).labels.length ∧
    (updateChart 7 9 (⟨[1], [2]⟩ : ChartState Nat Nat)).prices.length ≤ 50 ∧
    ((runChart ((List.range 51).map (fun i => (i, i)))).prices =
        (((List.range 51).map (fun i => (i, i))).map Prod.fst).drop 1 ∧
     (runChart ((List.range 51).map (fun i => (i, i)))).labels =
        (((List.range 51).map (fun i => (i, i))).map Prod.snd).drop 1) :=
  ⟨claim_c2_buffer_bounded_fifo.1 Nat Nat ⟨[1], [2]⟩ 7 9 rfl,
   claim_c2_buffer_bounded_fifo.2.1 Nat Nat ⟨[1], [2]⟩ 7 9 (by decide),
   claim_c2_buffer_bounded_fifo.2.2 Nat Nat ((List.range 51).map (fun i => (i, i)))
     (by simp)⟩

/-! ## Lemmas: transcript fetch chain -/

theorem acceptable_of_long {t : List Char} (h : 50 < t.length) :
    acceptable t = true := by
  have hne : t ≠ [] := by
    intro h0
    rw [h0] at h
    simp at h
  unfold acceptable
  simp [hne, h]

/-- Counterexample to C1 as stated: a first strategy that succeeds with a
parsed transcript of length exactly 50 (so of length `≥ 50`) is *not*
accepted — the chain goes on to invoke strategy 2 and returns strategy 2's
transcript. -/
theorem claim_c1_counterexample :
    (List.replicate 50 'a').length = 50 ∧
    getYouTubeTranscript (.success (List.replicate 50 'a'))
        (.success (List.replicate 60 'b')) .failure =
      Except.ok (List.replicate 60 'b') ∧
    List.replicate 60 'b' ≠ List.replicate 50 'a' ∧
    (runChain [.success (List.replicate 50 'a'),
        .success (List.replicate 60 'b'), .failure]).2 = 2 := by
  refine ⟨rfl, rfl, ?_, rfl⟩
  decide

/-- C1 (amended): if the first retrieval strategy succeeds and its parsed
transcript is *longer than* 50 characters, `getYouTubeTranscript` returns
that transcript and only one strategy is ever invoked — strategies 2 and 3
are never reached. -/
theorem claim_c1_short_circuit (t : List Char) (a2 a3 : AttemptResult)
    (h : 50 < t.length) :
    runChain [.success t, a2, a3] = (Except.ok t, 1) ∧
    getYouTubeTranscript (.success t) a2 a3 = Except.ok t := by
  have hacc := acceptable_of_long h
  constructor
  · simp [runChain, hacc]
  · simp [getYouTubeTranscript, runChain, hacc]

/-- Witness for C1 (amended) at a concrete 51-character transcript. -/
theorem claim_c1_short_circuit_witness :
    runChain [.success (List.replicate 51 'a'), .failure, .failure] =
        (Except.ok (List.replicate 51 'a'), 1) ∧
    getYouTubeTranscript (.success (List.replicate 51 'a')) .failure .failure =
        Except.ok (List.replicate 51 'a') :=
  claim_c1_short_circuit (List.replicate 51 'a') .failure .failure (by decide)

/-- C3: when every strategy fails or yields a transcript that does not pass
the acceptance gate, `getYouTubeTranscript` fails with the single
aggregated guidance-text error — never with an intermediate strategy's own
error (intermediate failures are only logged and carry no error value). -/
theorem claim_c3_aggregated_error (a1 a2 a3 : AttemptResult)
    (h1 : notAccepted a1 = true) (h2 : notAccepted a2 = true)
    (h3 : notAccepted a3 = true) :
    getYouTubeTranscript a1 a2 a3 = Except.error corsMsg := by
  cases a1 <;> cases a2 <;> cases a3 <;>
    simp_all [getYouTubeTranscript, runChain, notAccepted]

/-- Witness for C3: three outright failures produce the aggregated error. -/
theorem claim_c3_aggregated_error_witness :
    getYouTubeTranscript .failure .failure .failure = Except.error corsMsg :=
  claim_c3_aggregated_error .failure .failure .failure rfl rfl rfl

/-! ## Lemmas: summarizer -/

theorem claim_c4_too_short (text : List Char) (h : text.length < 50) :
    generateSummary text = Except.error tooShortMsg := by
  unfold generateSummary
  rw [if_pos (Or.inr h)]

/-- Witness for C4 on the empty transcript and on a short one. -/
theorem claim_c4_too_short_witness :
    generateSummary [] = Except.error tooShortMsg ∧
    generateSummary ("hi there".data) = Except.error tooShortMsg :=
  ⟨claim_c4_too_short [] (by decide), claim_c4_too_short ("hi there".data) (by decide)⟩

theorem summaryLengthOf_eq_specCeil (n : Nat) :
    summaryLengthOf n = min 5 (specCeilFifth n) := by
  have h : (n + 4) / 5 = specCeilFifth n := by
    unfold specCeilFifth
    split <;> omega
  unfold summaryLengthOf
  rw [h]

theorem generateSummary_ok (text : List Char) (h : 50 ≤ text.length) :
    generateSummary text =
      Except.ok ⟨summaryOf text, extractKeyPoints text, wordCountOf text⟩ := by
  have hgate : ¬ (text.isEmpty ∨ text.length < 50) := by
    rintro (he | hl)
    · rw [List.isEmpty_iff.mp he] at h
      simp at h
    · omega
  unfold generateSummary
  rw [if_neg hgate]

/-- C6: on input of length at least 50, the returned `summary` equals the
first `min(5, ⌈n × 0.2⌉)` of the long-enough sentence fragments, joined
with `". "` and finished with a trailing period. -/
theorem claim_c6_summary_shape (text : List Char) (h : 50 ≤ text.length) :
    ∃ kp wc, generateSummary text = Except.ok ⟨specSummary text, kp, wc⟩ := by
  refine ⟨extractKeyPoints text, wordCountOf text, ?_⟩
  rw [generateSummary_ok text h]
  have hsum : summaryOf text = specSummary text := by
    unfold summaryOf specSummary
    dsimp only
    rw [summaryLengthOf_eq_specCeil]
  rw [hsum]

/-- Witness for C6 on a concrete transcript with three sentences. -/
theorem claim_c6_summary_shape_witness :
    ∃ kp wc,
      generateSummary
          ("This is the first long sentence of the transcript body. Short. This is the second long sentence of the transcript body!".data) =
        Except.ok
          ⟨specSummary
              ("This is the first long sentence of the transcript body. Short. This is the second long sentence of the transcript body!".data),
            kp, wc⟩ :=
  claim_c6_summary_shape _ (by decide)

/-- C10: an input of length at least 50 in which no fragment survives the
20-character trim filter does not fail: the summary degenerates to the
single character `"."` while key points and word count are computed as
usual. -/
theorem claim_c10_no_long_sentence (text : List Char) (h : 50 ≤ text.length)
    (hall : (splitOnRuns isSentenceDelim text).all
        (fun s => decide ((trimChars s).length ≤ 20)) = true) :
    generateSummary text =
      Except.ok ⟨['.'], extractKeyPoints text, wordCountOf text⟩ := by
  have hsent : sentencesOf text = [] := by
    unfold sentencesOf
    rw [List.filter_eq_nil_iff]
    intro s hs
    have hle := List.all_eq_true.mp hall s hs
    simp only [decide_eq_true_eq] at hle ⊢
    omega
  rw [generateSummary_ok text h]
  have hdot : summaryOf text = ['.'] := by
    unfold summaryOf
    rw [hsent]
    rfl
  rw [hdot]

/-- Witness for C10 on a concrete 60-character input made of six short
sentences. -/
theorem claim_c10_no_long_sentence_witness :
    generateSummary
        ("aaaaaaaaa.aaaaaaaaa.aaaaaaaaa.aaaaaaaaa.aaaaaaaaa.aaaaaaaaa.".data) =
      Except.ok
        ⟨['.'],
          extractKeyPoints
            ("aaaaaaaaa.aaaaaaaaa.aaaaaaaaa.aaaaaaaaa.aaaaaaaaa.aaaaaaaaa.".data),
          wordCountOf
            ("aaaaaaaaa.aaaaaaaaa.aaaaaaaaa.aaaaaaaaa.aaaaaaaaa.aaaaaaaaa.".data)⟩ :=
  claim_c10_no_long_sentence _ (by decide) (by decide)

/-! ## Lemmas: metadata fetch and pipeline -/

/-- C8: `getYouTubeVideoInfo` never propagates an error — every failing
outcome (network error, non-2xx response, malformed body) produces exactly
the fixed fallback record — and the success or failure of the whole
`summarizeContent` pipeline does not depend on the metadata outcome. -/
theorem claim_c8_metadata_best_effort :
    (∀ o : InfoOutcome, infoFailed o = true → getYouTubeVideoInfo o = fallbackInfo) ∧
    (∀ (env : PipelineEnv) (o1 o2 : InfoOutcome),
        (summarizeContent { env with info := o1 }).isOk =
          (summarizeContent { env with info := o2 }).isOk) := by
  constructor
  · intro o h
    cases o with
    | netError => rfl
    | httpError => rfl
    | badBody => rfl
    | fields t a th => simp [infoFailed] at h
  · intro env o1 o2
    unfold summarizeContent
    dsimp only
    by_cases hv : isValidYouTubeURL env.url
    · rw [if_pos hv, if_pos hv]
      cases hx : extractYouTubeVideoId env.url with
      | none => rfl
      | some vid =>
        cases ht : getYouTubeTranscript env.a1 env.a2 env.a3 with
        | error e => rfl
        | ok transcript =>
          dsimp only
          by_cases hg : transcript.isEmpty ∨ transcript.length < 50
          · rw [if_pos hg, if_pos hg]
          · rw [if_neg hg, if_neg hg]
            cases hs : generateSummary transcript with
            | error e => rfl
            | ok s => rfl
    · rw [if_neg hv, if_neg hv]

/-- Witness for C8: a thrown oEmbed call yields the fallback record, and a
concrete pipeline run is ok-or-not independently of the metadata outcome. -/
theorem claim_c8_metadata_best_effort_witness :
    getYouTubeVideoInfo .netError = fallbackInfo ∧
    (summarizeContent ⟨"u", .netError, .failure, .failure, .failure⟩).isOk =
      (summarizeContent ⟨"u", .fields ("T") ("A") none, .failure, .failure, .failure⟩).isOk :=
  ⟨claim_c8_metadata_best_effort.1 .netError rfl,
   claim_c8_metadata_best_effort.2 ⟨"u", .badBody, .failure, .failure, .failure⟩
     .netError (.fields ("T") ("A") none)⟩

/-! ## Lemmas: key-point frequency table -/

theorem keysOf_cons (p : List Char × Nat) (m : List (List Char × Nat)) :
    keysOf (p :: m) = p.1 :: keysOf m := rfl

theorem bump_of_not_mem (m : List (List Char × Nat)) (w : List Char)
    (h : w ∉ keysOf m) : bump w m = m ++ [(w, 1)] := by
  induction m with
  | nil => rfl
  | cons p rest ih =>
    have hne : p.1 ≠ w := by
      intro he
      exact h (by simp [keysOf, he])
    have hrest : w ∉ keysOf rest := by
      intro hm
      exact h (by rw [keysOf_cons]; exact List.mem_cons_of_mem _ hm)
    unfold bump
    rw [if_neg hne, ih hrest]
    simp

theorem keysOf_bump_of_mem (m : List (List Char × Nat)) (w : List Char)
    (h : w ∈ keysOf m) : keysOf (bump w m) = keysOf m := by
  induction m with
  | nil => simp [keysOf] at h
  | cons p rest ih =>
    unfold bump
    by_cases he : p.1 = w
    · rw [if_pos he]
      rw [keysOf_cons, keysOf_cons]
    · rw [if_neg he]
      have hrest : w ∈ keysOf rest := by
        rw [keysOf_cons] at h
        rcases List.mem_cons.mp h with h1 | h1
        · exact absurd h1.symm he
        · exact h1
      rw [keysOf_cons, keysOf_cons, ih hrest]

theorem keysOf_nodup_bump (m : List (List Char × Nat)) (w : List Char)
    (h : (keysOf m).Nodup) : (keysOf (bump w m)).Nodup := by
  by_cases hm : w ∈ keysOf m
  · rwa [keysOf_bump_of_mem m w hm]
  · rw [bump_of_not_mem m w hm]
    have hk : keysOf (m ++ [(w, 1)]) = keysOf m ++ [w] := by
      unfold keysOf
      rw [List.map_append]
      rfl
    rw [hk, List.nodup_append]
    refine ⟨h, List.nodup_singleton w, ?_⟩
    intro a ha hb
    rw [List.mem_singleton] at hb
    exact hm (hb ▸ ha)

theorem bump_map_addCnt (m : List (List Char × Nat)) (t : List Char)
    (ts : List (List Char)) (hmem : t ∈ keysOf m) (hnd : (keysOf m).Nodup) :
    (bump t m).map (fun p => (p.1, p.2 + ts.count p.1)) =
      m.map (fun p => (p.1, p.2 + (t :: ts).count p.1)) := by
  induction m with
  | nil => simp [keysOf] at hmem
  | cons p rest ih =>
    unfold bump
    by_cases he : p.1 = t
    · rw [if_pos he]
      have hnotin : ∀ q ∈ rest, q.1 ≠ t := by
        intro q hq hqt
        rw [keysOf_cons, List.nodup_cons] at hnd
        exact hnd.1 (he ▸ hqt ▸ List.mem_map_of_mem Prod.fst hq)
      simp only [List.map_cons]
      congr 1
      · rw [he, List.count_cons_self]
        simp only [Prod.mk.injEq, true_and]
        omega
      · apply List.map_congr_left
        intro q hq
        rw [List.count_cons_of_ne (hnotin q hq)]
    · rw [if_neg he]
      have hrest : t ∈ keysOf rest := by
        rw [keysOf_cons] at hmem
        rcases List.mem_cons.mp hmem with h1 | h1
        · exact absurd h1.symm he
        · exact h1
      have hndrest : (keysOf rest).Nodup := by
        rw [keysOf_cons, List.nodup_cons] at hnd
        exact hnd.2
      simp only [List.map_cons]
      congr 1
      · rw [List.count_cons_of_ne he]
      · exact ih hrest hndrest

theorem firstOccur_filter (p : List Char → Bool) (l : List (List Char)) :
    firstOccur (l.filter p) = (firstOccur l).filter p := by
  induction l with
  | nil => rfl
  | cons x xs ih =>
    by_cases hx : p x = true
    · rw [List.filter_cons_of_pos hx]
      simp only [firstOccur]
      rw [ih, List.filter_cons_of_pos hx]
      rw [List.filter_filter, List.filter_filter]
      congr 1
      apply List.filter_congr
      intro y hy
      rw [Bool.and_comm]
    · rw [List.filter_cons_of_neg (by simpa using hx), ih]
      simp only [firstOccur]
      rw [List.filter_cons_of_neg (by simpa using hx), List.filter_filter]
      apply List.filter_congr
      intro y hy
      by_cases hpy : p y = true
      · have hyx : y ≠ x := by
          intro he
          rw [he] at hpy
          exact hx hpy
        simp [hpy, hyx]
      · simp [Bool.eq_false_iff.mpr hpy]

theorem count_filter_pos (p : List Char → Bool) (a : List Char)
    (l : List (List Char)) (h : p a = true) : (l.filter p).count a = l.count a :=
  List.count_filter h

theorem specFreq_cons (t : List Char) (us : List (List Char)) :
    specFreq (t :: us) =
      (t, us.count t + 1) :: specFreq (us.filter (fun y => decide (y ≠ t))) := by
  unfold specFreq
  simp only [firstOccur]
  rw [List.map_cons, List.count_cons_self]
  congr 1
  rw [firstOccur_filter]
  apply List.map_congr_left
  intro w hw
  have hwt : w ≠ t := by
    rcases List.mem_filter.mp hw with ⟨_, hdec⟩
    exact of_decide_eq_true hdec
  rw [List.count_cons_of_ne hwt, count_filter_pos _ _ _ (decide_eq_true hwt)]

theorem freqFold_eq (ts : List (List Char)) (m : List (List Char × Nat))
    (hnd : (keysOf m).Nodup) :
    ts.foldl (fun acc w => bump w acc) m =
      m.map (fun p => (p.1, p.2 + ts.count p.1)) ++
        specFreq (ts.filter (fun w => decide (w ∉ keysOf m))) := by
  induction ts generalizing m with
  | nil =>
    simp only [List.foldl_nil, List.filter_nil, List.count_nil, Nat.add_zero]
    rw [show specFreq [] = [] from rfl, List.append_nil]
    conv_lhs => rw [← List.map_id m]
    apply List.map_congr_left
    intro p hp
    rfl
  | cons t ts ih =>
    simp only [List.foldl_cons]
    by_cases hm : t ∈ keysOf m
    · rw [ih (bump t m) (keysOf_nodup_bump m t hnd)]
      rw [bump_map_addCnt m t ts hm hnd, keysOf_bump_of_mem m t hm]
      congr 1
      rw [List.filter_cons_of_neg (by simp [hm])]
    · rw [ih (bump t m) (keysOf_nodup_bump m t hnd)]
      have hk : keysOf (bump t m) = keysOf m ++ [t] := by
        rw [bump_of_not_mem m t hm]
        unfold keysOf
        rw [List.map_append]
        rfl
      have hmap : (bump t m).map (fun p => (p.1, p.2 + ts.count p.1)) =
          m.map (fun p => (p.1, p.2 + (t :: ts).count p.1)) ++
            [(t, ts.count t + 1)] := by
        rw [bump_of_not_mem m t hm, List.map_append]
        congr 1
        · apply List.map_congr_left
          intro q hq
          have hqt : q.1 ≠ t := by
            intro he
            exact hm (he ▸ List.mem_map_of_mem Prod.fst hq)
          rw [List.count_cons_of_ne hqt]
        · simp only [List.map_cons, List.map_nil]
          rw [Nat.add_comm]
      rw [hmap, hk, List.append_assoc, List.singleton_append]
      congr 1
      rw [List.filter_cons_of_pos (by simp [hm]), specFreq_cons]
      congr 1
      · rw [count_filter_pos _ _ _ (by simp [hm])]
      · rw [List.filter_filter]
        apply congrArg
        apply List.filter_congr
        intro w hw
        by_cases hw1 : w ∈ keysOf m
        · simp [hw1]
        · by_cases hw2 : w = t
          · simp [hw2]
          · simp [hw1, hw2]

theorem condFold_eq (ws : List (List Char)) (m : List (List Char × Nat)) :
    ws.foldl (fun m w =>
        let cleanWord := w.filter isWordChar
        if 4 < cleanWord.length ∧ cleanWord ∉ stopWords then bump cleanWord m
        else m) m =
      ((ws.map (fun w => w.filter isWordChar)).filter
          (fun c => decide (4 < c.length ∧ c ∉ stopWords))).foldl
        (fun acc w => bump w acc) m := by
  induction ws generalizing m with
  | nil => rfl
  | cons w ws ih =>
    simp only [List.foldl_cons, List.map_cons, List.filter_cons]
    by_cases hb : decide (4 < (w.filter isWordChar).length ∧
        (w.filter isWordChar) ∉ stopWords) = true
    · have hc := of_decide_eq_true hb
      rw [if_pos hc, if_pos hb, List.foldl_cons]
      exact ih _
    · have hc : ¬ (4 < (w.filter isWordChar).length ∧
          (w.filter isWordChar) ∉ stopWords) := fun h => hb (decide_eq_true h)
      rw [if_neg hc, if_neg hb]
      exact ih _

theorem wordFreq_eq_specFreq (text : List Char) :
    (splitOnRuns isWSChar (text.map toLowerAscii)).foldl (fun m w =>
        let cleanWord := w.filter isWordChar
        if 4 < cleanWord.length ∧ cleanWord ∉ stopWords then bump cleanWord m
        else m) [] =
      specFreq (acceptedTokens text) := by
  rw [condFold_eq, freqFold_eq _ [] (by unfold keysOf; exact List.nodup_nil)]
  unfold acceptedTokens
  simp only [List.map_nil, List.nil_append, keysOf]
  congr 1
  apply List.filter_eq_self.mpr
  intro a ha
  simp

/-- Counterexample to C5 as stated: on the input `"apple 12345"` both
accepted tokens occur once, and the claimed first-encountered tie-break
would put `apple` first; but `Object.entries` enumerates the array-index
key `12345` before the string key `apple`, so the code returns the numeric
token first. -/
theorem claim_c5_counterexample :
    extractKeyPoints ("apple 12345".data) = ["12345".data, "apple".data] ∧
    specKeyPointsFE ("apple 12345".data) = ["apple".data, "12345".data] ∧
    extractKeyPoints ("apple 12345".data) ≠ specKeyPointsFE ("apple 12345".data) :=
  ⟨by decide, by decide, by decide⟩

/-- C5 (amended): `extractKeyPoints` returns the 5 highest-frequency
accepted tokens (lowercased, stripped of non-word characters, longer than 4
characters, not stop words), ordered by a stable sort by descending count
over the frequency table as `Object.entries` enumerates it: tokens that are
canonical array-index numerals first in ascending numeric order, then the
remaining tokens in first-encountered order. -/
theorem claim_c5_keypoints_entries_order (text : List Char) :
    extractKeyPoints text = specKeyPointsJS text := by
  unfold extractKeyPoints specKeyPointsJS
  dsimp only
  rw [wordFreq_eq_specFreq]

/-- Witness for C5 (amended) on a concrete text. -/
theorem claim_c5_keypoints_entries_order_witness :
    extractKeyPoints ("hello hello world banana banana 12345 12345 12345".data) =
      specKeyPointsJS ("hello hello world banana banana 12345 12345 12345".data) :=
  claim_c5_keypoints_entries_order _

/-! ## Lemmas: URL patterns and video-id extraction -/

theorem matchLit_self (lit rest : List Char) : matchLit lit (lit ++ rest) = some rest := by
  induction lit with
  | nil => rfl
  | cons c cs ih => simp [matchLit, ih]

theorem matchLit_some_eq (lit : List Char) :
    ∀ cs rest, matchLit lit cs = some rest → cs = lit ++ rest := by
  induction lit with
  | nil =>
    intro cs rest h
    simp [matchLit] at h
    simp [h]
  | cons lc ls ih =>
    intro cs rest h
    match cs with
    | [] => simp [matchLit] at h
    | c :: cs' =>
      simp only [matchLit] at h
      split at h
      · next heq => rw [List.cons_append, heq, ih cs' rest h]
      · exact absurd h (by simp)

theorem matchIdRun_some (cs cap : List Char) (h : matchIdRun cs = some cap) :
    cap.length = 11 ∧ cap.all isIdChar = true := by
  unfold matchIdRun at h
  dsimp only at h
  split at h
  · next hc =>
    injection h with h2
    rw [← h2]
    exact hc
  · exact absurd h (by simp)

theorem matchAt1_some (l cap : List Char) (h : matchAt1 l = some cap) :
    cap.length = 11 ∧ cap.all isIdChar = true := by
  match l with
  | [] => simp [matchAt1] at h
  | c :: cs =>
    simp only [matchAt1] at h
    by_cases hg : c = '?' ∨ c = '&'
    · rw [if_pos hg] at h
      match cs with
      | [] => simp at h
      | [v] => simp at h
      | v :: e :: rest =>
        dsimp only at h
        by_cases hv : v = 'v' ∧ e = '='
        · rw [if_pos hv] at h
          exact matchIdRun_some _ _ h
        · rw [if_neg hv] at h
          exact absurd h (by simp)
    · rw [if_neg hg] at h
      exact absurd h (by simp)

theorem matchAtLit_some (lit l cap : List Char) (h : matchAtLit lit l = some cap) :
    cap.length = 11 ∧ cap.all isIdChar = true := by
  unfold matchAtLit at h
  split at h
  · exact matchIdRun_some _ _ h
  · exact absurd h (by simp)

theorem findCapture_some (p : List Char → Option (List Char))
    (hp : ∀ l cap, p l = some cap → cap.length = 11 ∧ cap.all isIdChar = true) :
    ∀ l cap, findCapture p l = some cap → cap.length = 11 ∧ cap.all isIdChar = true := by
  intro l
  induction l with
  | nil => exact fun cap h => hp [] cap h
  | cons c cs ih =>
    intro cap h
    unfold findCapture at h
    split at h
    · next heq =>
      injection h with h2
      rw [← h2]
      exact hp _ _ heq
    · exact ih cap h

theorem findCapture_of_match (p : List Char → Option (List Char)) (l cap : List Char)
    (h : p l = some cap) : findCapture p l = some cap := by
  match l with
  | [] => exact h
  | c :: cs =>
    unfold findCapture
    rw [h]

theorem findCapture_cons_none (p : List Char → Option (List Char)) (c : Char)
    (cs : List Char) (h : p (c :: cs) = none) :
    findCapture p (c :: cs) = findCapture p cs := by
  conv_lhs => rw [findCapture]
  rw [h]

theorem findCapture_isSome_append (p : List Char → Option (List Char))
    (a l : List Char) (h : (findCapture p l).isSome = true) :
    (findCapture p (a ++ l)).isSome = true := by
  induction a with
  | nil => simpa
  | cons c a' ih =>
    rw [List.cons_append]
    cases hp : p (c :: (a' ++ l)) with
    | some cap =>
      rw [findCapture_of_match p _ cap hp]
      rfl
    | none =>
      rw [findCapture_cons_none p _ _ hp]
      exact ih

theorem matchAt1_none_head (c : Char) (cs : List Char) (h : ¬ (c = '?' ∨ c = '&')) :
    matchAt1 (c :: cs) = none := by
  simp only [matchAt1]
  rw [if_neg h]

theorem findCapture1_skip (pre l : List Char)
    (h : pre.all (fun c => !(decide (c = '?') || decide (c = '&'))) = true) :
    findCapture matchAt1 (pre ++ l) = findCapture matchAt1 l := by
  induction pre with
  | nil => rfl
  | cons c pre' ih =>
    rw [List.all_cons, Bool.and_eq_true] at h
    obtain ⟨hc0, htail⟩ := h
    have hc : ¬ (c = '?' ∨ c = '&') := by
      simp only [Bool.not_eq_true', Bool.or_eq_false_iff, decide_eq_false_iff_not] at hc0
      exact not_or.mpr hc0
    rw [List.cons_append,
      findCapture_cons_none _ _ _ (matchAt1_none_head _ _ hc)]
    exact ih htail

theorem findCapture1_of_allId (l : List Char) (h : l.all isIdChar = true) :
    findCapture matchAt1 l = none := by
  induction l with
  | nil => rfl
  | cons c cs ih =>
    rw [List.all_cons, Bool.and_eq_true] at h
    obtain ⟨hc, htail⟩ := h
    have hg : ¬ (c = '?' ∨ c = '&') := by
      rintro (rfl | rfl) <;> exact absurd hc (by decide)
    rw [findCapture_cons_none _ _ _ (matchAt1_none_head _ _ hg)]
    exact ih htail

theorem matchLit_none_of_any_bad :
    ∀ lit cs : List Char, lit.any (fun x => !isIdChar x) = true →
      cs.all isIdChar = true → matchLit lit cs = none := by
  intro lit
  induction lit with
  | nil =>
    intro cs h _
    simp at h
  | cons lc ls ih =>
    intro cs hbad hcs
    match cs with
    | [] => rfl
    | c :: cs' =>
      simp only [matchLit]
      by_cases he : c = lc
      · rw [if_pos he]
        rw [List.all_cons, Bool.and_eq_true] at hcs
        obtain ⟨hc, hcs'⟩ := hcs
        rw [List.any_cons, Bool.or_eq_true] at hbad
        rcases hbad with hlc | hls
        · rw [← he, hc] at hlc
          exact absurd hlc (by decide)
        · exact ih cs' hls hcs'
      · rw [if_neg he]

theorem matchLit_none_of_failsWithin :
    ∀ lit pre l : List Char, litFailsWithin lit pre = true →
      matchLit lit (pre ++ l) = none := by
  intro lit
  induction lit with
  | nil =>
    intro pre l h
    simp [litFailsWithin] at h
  | cons lc ls ih =>
    intro pre l h
    match pre with
    | [] => simp [litFailsWithin] at h
    | c :: pre' =>
      rw [List.cons_append]
      simp only [matchLit]
      simp only [litFailsWithin] at h
      by_cases he : c = lc
      · rw [if_pos he] at h ⊢
        exact ih pre' l h
      · rw [if_neg he]

theorem matchAtLit_none_of_failsWithin (lit pre l : List Char)
    (h : litFailsWithin lit pre = true) : matchAtLit lit (pre ++ l) = none := by
  unfold matchAtLit
  rw [matchLit_none_of_failsWithin lit pre l h]

theorem findCaptureLit_skip (lit : List Char) :
    ∀ pre l, scanClears lit pre = true →
      findCapture (matchAtLit lit) (pre ++ l) = findCapture (matchAtLit lit) l := by
  intro pre
  induction pre with
  | nil => intro l _; rfl
  | cons c pre' ih =>
    intro l h
    unfold scanClears at h
    rw [List.length_cons, List.range_succ_eq_map, List.all_cons, Bool.and_eq_true] at h
    obtain ⟨h0, htail⟩ := h
    rw [List.all_map] at htail
    have htail' : scanClears lit pre' = true := by
      unfold scanClears
      rw [List.all_eq_true] at htail ⊢
      intro i hi
      have hx := htail i hi
      simpa using hx
    have h0' : litFailsWithin lit (c :: pre') = true := by simpa using h0
    have hnone := matchAtLit_none_of_failsWithin lit (c :: pre') l h0'
    rw [List.cons_append] at hnone
    rw [List.cons_append, findCapture_cons_none _ _ _ hnone]
    exact ih l htail'

theorem findCaptureLit_of_allId (lit : List Char)
    (hbad : lit.any (fun x => !isIdChar x) = true) :
    ∀ l, l.all isIdChar = true → findCapture (matchAtLit lit) l = none := by
  intro l
  induction l with
  | nil =>
    intro _
    show matchAtLit lit [] = none
    unfold matchAtLit
    rw [matchLit_none_of_any_bad lit [] hbad rfl]
  | cons c cs ih =>
    intro h
    have hnone : matchAtLit lit (c :: cs) = none := by
      unfold matchAtLit
      rw [matchLit_none_of_any_bad lit (c :: cs) hbad h]
    rw [findCapture_cons_none _ _ _ hnone]
    rw [List.all_cons, Bool.and_eq_true] at h
    exact ih h.2

theorem matchIdRun_full (id : List Char) (h1 : id.length = 11)
    (h2 : id.all isIdChar = true) : matchIdRun id = some id := by
  unfold matchIdRun
  dsimp only
  rw [List.take_of_length_le (by rw [h1])]
  rw [if_pos ⟨h1, h2⟩]

theorem extract_watch (id : List Char) (h1 : id.length = 11)
    (h2 : id.all isIdChar = true) :
    extractList ("https://www.youtube.com/watch?v=".data ++ id) = some id := by
  have hsplit : "https://www.youtube.com/watch?v=".data =
      "https://www.youtube.com/watch".data ++ ['?', 'v', '='] := by decide
  have hid : matchAt1 ('?' :: 'v' :: '=' :: id) = some id := by
    simp only [matchAt1]
    rw [if_pos (Or.inl trivial), if_pos ⟨trivial, trivial⟩]
    exact matchIdRun_full id h1 h2
  have hfc1 : findCapture matchAt1 ("https://www.youtube.com/watch?v=".data ++ id) =
      some id := by
    rw [hsplit, List.append_assoc, findCapture1_skip _ _ (by decide)]
    exact findCapture_of_match _ _ _ hid
  unfold extractList
  rw [hfc1]

theorem extract_short (id : List Char) (h1 : id.length = 11)
    (h2 : id.all isIdChar = true) :
    extractList ("https://youtu.be/".data ++ id) = some id := by
  have hfc1 : findCapture matchAt1 ("https://youtu.be/".data ++ id) = none := by
    rw [findCapture1_skip _ _ (by decide)]
    exact findCapture1_of_allId id h2
  have hsplit : "https://youtu.be/".data = "https://".data ++ shortLinkLit := by decide
  have hmatch : matchAtLit shortLinkLit (shortLinkLit ++ id) = some id := by
    unfold matchAtLit
    rw [matchLit_self]
    exact matchIdRun_full id h1 h2
  have hfc2 : findCapture matchAt2 ("https://youtu.be/".data ++ id) = some id := by
    have he : matchAt2 = matchAtLit shortLinkLit := rfl
    rw [he, hsplit, List.append_assoc, findCaptureLit_skip shortLinkLit _ _ (by decide)]
    exact findCapture_of_match _ _ _ hmatch
  unfold extractList
  rw [hfc1, hfc2]

theorem extract_embed (id : List Char) (h1 : id.length = 11)
    (h2 : id.all isIdChar = true) :
    extractList ("https://www.youtube.com/embed/".data ++ id) = some id := by
  have hfc1 : findCapture matchAt1 ("https://www.youtube.com/embed/".data ++ id) =
      none := by
    rw [findCapture1_skip _ _ (by decide)]
    exact findCapture1_of_allId id h2
  have hfc2 : findCapture matchAt2 ("https://www.youtube.com/embed/".data ++ id) =
      none := by
    have he : matchAt2 = matchAtLit shortLinkLit := rfl
    rw [he, findCaptureLit_skip shortLinkLit _ _ (by decide)]
    exact findCaptureLit_of_allId shortLinkLit (by decide) id h2
  have hsplit : "https://www.youtube.com/embed/".data =
      "https://www.youtube.com/".data ++ embedLit := by decide
  have hmatch : matchAtLit embedLit (embedLit ++ id) = some id := by
    unfold matchAtLit
    rw [matchLit_self]
    exact matchIdRun_full id h1 h2
  have hfc3 : findCapture matchAt3 ("https://www.youtube.com/embed/".data ++ id) =
      some id := by
    have he : matchAt3 = matchAtLit embedLit := rfl
    rw [he, hsplit, List.append_assoc, findCaptureLit_skip embedLit _ _ (by decide)]
    exact findCapture_of_match _ _ _ hmatch
  unfold extractList
  rw [hfc1, hfc2, hfc3]

/-- C7: every 11-character id over `[a-zA-Z0-9_-]` is extracted unchanged
from each of the three accepted URL shapes, and on the concrete URL
`https://www.youtube.com/watch?v=dQw4w9WgXcQ` the classifier accepts and
the extractor returns `dQw4w9WgXcQ`. -/
theorem claim_c7_extract_shapes :
    (∀ id : String, id.data.length = 11 → id.data.all isIdChar = true →
      extractYouTubeVideoId ("https://www.youtube.com/watch?v=" ++ id) = some id ∧
      extractYouTubeVideoId ("https://youtu.be/" ++ id) = some id ∧
      extractYouTubeVideoId ("https://www.youtube.com/embed/" ++ id) = some id) ∧
    isValidYouTubeURL ("https://www.youtube.com/watch?v=dQw4w9WgXcQ") = true ∧
    extractYouTubeVideoId ("https://www.youtube.com/watch?v=dQw4w9WgXcQ") =
      some ("dQw4w9WgXcQ") := by
  refine ⟨?_, by decide, by decide⟩
  intro id h1 h2
  refine ⟨?_, ?_, ?_⟩
  · unfold extractYouTubeVideoId
    rw [String.data_append, extract_watch id.data h1 h2]
    rfl
  · unfold extractYouTubeVideoId
    rw [String.data_append, extract_short id.data h1 h2]
    rfl
  · unfold extractYouTubeVideoId
    rw [String.data_append, extract_embed id.data h1 h2]
    rfl

/-- Witness for C7 at the concrete id `dQw4w9WgXcQ` in all three shapes. -/
theorem claim_c7_extract_shapes_witness :
    extractYouTubeVideoId ("https://www.youtube.com/watch?v=" ++ "dQw4w9WgXcQ") =
        some ("dQw4w9WgXcQ") ∧
    extractYouTubeVideoId ("https://youtu.be/" ++ "dQw4w9WgXcQ") =
        some ("dQw4w9WgXcQ") ∧
    extractYouTubeVideoId ("https://www.youtube.com/embed/" ++ "dQw4w9WgXcQ") =
        some ("dQw4w9WgXcQ") :=
  claim_c7_extract_shapes.1 ("dQw4w9WgXcQ") (by decide) (by decide)

theorem litB_true (lit : List Char) (k : List Char → Bool) (cs : List Char)
    (h : litB lit k cs = true) : ∃ rest, cs = lit ++ rest ∧ k rest = true := by
  unfold litB at h
  split at h
  · next rest heq => exact ⟨rest, matchLit_some_eq lit cs rest heq, h⟩
  · exact absurd h (by simp)

theorem optB_true (lit : List Char) (k : List Char → Bool) (cs : List Char)
    (h : optB lit k cs = true) : ∃ a rest, cs = a ++ rest ∧ k rest = true := by
  unfold optB at h
  rw [Bool.or_eq_true] at h
  rcases h with h | h
  · obtain ⟨rest, he, hk⟩ := litB_true lit k cs h
    exact ⟨lit, rest, he, hk⟩
  · exact ⟨[], cs, rfl, h⟩

theorem idRun11_matchIdRun (cs : List Char) (h : idRun11 cs = true) :
    matchIdRun cs = some (cs.take 11) ∧ (cs.take 11).length = 11 ∧
      (cs.take 11).all isIdChar = true := by
  unfold idRun11 at h
  rw [Bool.and_eq_true, decide_eq_true_eq] at h
  obtain ⟨hl, ha⟩ := h
  refine ⟨?_, hl, ha⟩
  unfold matchIdRun
  dsimp only
  rw [if_pos ⟨hl, ha⟩]

theorem matchAt2_some (l cap : List Char) (h : matchAt2 l = some cap) :
    cap.length = 11 ∧ cap.all isIdChar = true :=
  matchAtLit_some shortLinkLit l cap h

theorem matchAt3_some (l cap : List Char) (h : matchAt3 l = some cap) :
    cap.length = 11 ∧ cap.all isIdChar = true :=
  matchAtLit_some embedLit l cap h

theorem extractList_isSome_of_capture (l : List Char)
    (h : (findCapture matchAt1 l).isSome = true ∨
         (findCapture matchAt2 l).isSome = true ∨
         (findCapture matchAt3 l).isSome = true) :
    ∃ cap, extractList l = some cap ∧ cap.length = 11 ∧ cap.all isIdChar = true := by
  unfold extractList
  cases hc1 : findCapture matchAt1 l with
  | some cap => exact ⟨cap, rfl, findCapture_some matchAt1 matchAt1_some l cap hc1⟩
  | none =>
    cases hc2 : findCapture matchAt2 l with
    | some cap => exact ⟨cap, rfl, findCapture_some matchAt2 matchAt2_some l cap hc2⟩
    | none =>
      cases hc3 : findCapture matchAt3 l with
      | some cap => exact ⟨cap, rfl, findCapture_some matchAt3 matchAt3_some l cap hc3⟩
      | none =>
        rw [hc1, hc2, hc3] at h
        simp at h

theorem watchOrShortTail_capture (r : List Char) (h : watchOrShortTail r = true) :
    (∃ r5, r = watchLit ++ r5 ∧ idRun11 r5 = true) ∨
    (∃ r5, r = shortLinkLit ++ r5 ∧ idRun11 r5 = true) := by
  unfold watchOrShortTail at h
  rw [Bool.or_eq_true] at h
  rcases h with h | h
  · exact Or.inl (litB_true _ _ _ h)
  · exact Or.inr (litB_true _ _ _ h)

theorem runChain_error (as : List AttemptResult) (e : String)
    (h : (runChain as).1 = Except.error e) : e = corsMsg := by
  induction as with
  | nil =>
    simp [runChain] at h
    exact h.symm
  | cons a rest ih =>
    unfold runChain at h
    cases a with
    | failure =>
      dsimp only at h
      exact ih h
    | success t =>
      dsimp only at h
      by_cases hacc : acceptable t = true
      · rw [if_pos hacc] at h
        exact absurd h (by simp)
      · rw [if_neg hacc] at h
        dsimp only at h
        exact ih h

theorem generateSummary_error (t : List Char) (e : String)
    (h : generateSummary t = Except.error e) : e = tooShortMsg := by
  unfold generateSummary at h
  split at h
  · injection h with h2
    exact h2.symm
  · exact absurd h (by simp)

/-- C9: for every URL the classifier accepts, the extractor returns a
non-null 11-character id over the id alphabet; consequently the
`Invalid YouTube URL format` error branch of `summarizeContent` is
unreachable for classifier-accepted URLs. -/
theorem claim_c9_no_invalid_format (env : PipelineEnv)
    (h : isValidYouTubeURL env.url = true) :
    (∃ id : String, extractYouTubeVideoId env.url = some id ∧ id.length = 11 ∧
        id.data.all isIdChar = true) ∧
    summarizeContent env ≠ Except.error invalidFormatMsg := by
  have hmain : ∃ A r4, env.url.data = A ++ r4 ∧
      (watchOrShortTail r4 = true ∨ litB embedPathLit idRun11 r4 = true) := by
    have hv := h
    unfold isValidYouTubeURL at hv
    rw [Bool.or_eq_true] at hv
    rcases hv with hv | hv
    · unfold watchPat at hv
      obtain ⟨r1, he1, hv⟩ := litB_true _ _ _ hv
      obtain ⟨a1, r2, he2, hv⟩ := optB_true _ _ _ hv
      obtain ⟨r3, he3, hv⟩ := litB_true _ _ _ hv
      obtain ⟨a2, r4, he4, hv⟩ := optB_true _ _ _ hv
      refine ⟨httpLit ++ a1 ++ schemeSepLit ++ a2, r4, ?_, Or.inl hv⟩
      rw [he1, he2, he3, he4]
      simp [List.append_assoc]
    · unfold embedPat at hv
      obtain ⟨r1, he1, hv⟩ := litB_true _ _ _ hv
      obtain ⟨a1, r2, he2, hv⟩ := optB_true _ _ _ hv
      obtain ⟨r3, he3, hv⟩ := litB_true _ _ _ hv
      obtain ⟨a2, r4, he4, hv⟩ := optB_true _ _ _ hv
      refine ⟨httpLit ++ a1 ++ schemeSepLit ++ a2, r4, ?_, Or.inr hv⟩
      rw [he1, he2, he3, he4]
      simp [List.append_assoc]
  have hex : ∃ cap, extractList env.url.data = some cap ∧ cap.length = 11 ∧
      cap.all isIdChar = true := by
    apply extractList_isSome_of_capture
    obtain ⟨A, r4, hurl, htail⟩ := hmain
    rcases htail with htail | htail
    · rcases watchOrShortTail_capture r4 htail with ⟨r5, he5, hk⟩ | ⟨r5, he5, hk⟩
      · left
        obtain ⟨hmr, _, _⟩ := idRun11_matchIdRun r5 hk
        have hX : (findCapture matchAt1 ('?' :: 'v' :: '=' :: r5)).isSome = true := by
          have hm : matchAt1 ('?' :: 'v' :: '=' :: r5) = some (r5.take 11) := by
            simp only [matchAt1]
            rw [if_pos (Or.inl trivial), if_pos ⟨trivial, trivial⟩]
            exact hmr
          rw [findCapture_of_match matchAt1 _ _ hm]
          rfl
        have hw : watchLit = "youtube.com/watch".data ++ ['?', 'v', '='] := by decide
        have hurl2 : env.url.data =
            (A ++ "youtube.com/watch".data) ++ ('?' :: 'v' :: '=' :: r5) := by
          rw [hurl, he5, hw]
          simp [List.append_assoc]
        rw [hurl2]
        exact findCapture_isSome_append matchAt1 _ _ hX
      · right; left
        obtain ⟨hmr, _, _⟩ := idRun11_matchIdRun r5 hk
        have hX : (findCapture matchAt2 (shortLinkLit ++ r5)).isSome = true := by
          have hm : matchAt2 (shortLinkLit ++ r5) = some (r5.take 11) := by
            show matchAtLit shortLinkLit (shortLinkLit ++ r5) = some (r5.take 11)
            unfold matchAtLit
            rw [matchLit_self]
            exact hmr
          rw [findCapture_of_match matchAt2 _ _ hm]
          rfl
        rw [hurl, he5]
        exact findCapture_isSome_append matchAt2 _ _ hX
    · right; right
      obtain ⟨r5, he5, hk⟩ := litB_true _ _ _ htail
      obtain ⟨hmr, _, _⟩ := idRun11_matchIdRun r5 hk
      have hsplitE : embedPathLit = "youtube.com/".data ++ embedLit := by decide
      have hX : (findCapture matchAt3 (embedLit ++ r5)).isSome = true := by
        have hm : matchAt3 (embedLit ++ r5) = some (r5.take 11) := by
          show matchAtLit embedLit (embedLit ++ r5) = some (r5.take 11)
          unfold matchAtLit
          rw [matchLit_self]
          exact hmr
        rw [findCapture_of_match matchAt3 _ _ hm]
        rfl
      have hurl2 : env.url.data = (A ++ "youtube.com/".data) ++ (embedLit ++ r5) := by
        rw [hurl, he5, hsplitE]
        simp [List.append_assoc]
      rw [hurl2]
      exact findCapture_isSome_append matchAt3 _ _ hX
  obtain ⟨cap, hcap, hlen, hall⟩ := hex
  have hextract : extractYouTubeVideoId env.url = some (String.mk cap) := by
    unfold extractYouTubeVideoId
    rw [hcap]
    rfl
  refine ⟨⟨String.mk cap, hextract, hlen, hall⟩, ?_⟩
  unfold summarizeContent
  rw [if_pos h, hextract]
  dsimp only
  cases ht : getYouTubeTranscript env.a1 env.a2 env.a3 with
  | error e =>
    have he := runChain_error [env.a1, env.a2, env.a3] e ht
    intro hc
    injection hc with h2
    rw [he] at h2
    exact absurd h2 (by decide)
  | ok t =>
    dsimp only
    by_cases hg : t.isEmpty ∨ t.length < 50
    · rw [if_pos hg]
      intro hc
      injection hc with h2
      exact absurd h2 (by decide)
    · rw [if_neg hg]
      cases hs : generateSummary t with
      | error e =>
        have he := generateSummary_error t e hs
        intro hc
        injection hc with h2
        rw [he] at h2
        exact absurd h2 (by decide)
      | ok s => exact fun hc => Except.noConfusion hc

/-- Witness for C9 on the concrete accepted URL. -/
theorem claim_c9_no_invalid_format_witness :
    (∃ id : String,
        extractYouTubeVideoId ("https://www.youtube.com/watch?v=dQw4w9WgXcQ") = some id ∧
        id.length = 11 ∧ id.data.all isIdChar = true) ∧
    summarizeContent
        ⟨"https://www.youtube.com/watch?v=dQw4w9WgXcQ", .netError, .failure, .failure,
          .failure⟩ ≠
      Except.error invalidFormatMsg :=
  claim_c9_no_invalid_format
    ⟨"https://www.youtube.com/watch?v=dQw4w9WgXcQ", .netError, .failure, .failure,
      .failure⟩ (by decide)
